import Mathlib

/-
Verification of the Beeper real-time data source (BeeperDatabaseListener.py and
SubjectiveBeeperRealTimeDataSource.py).  The two files contain near-duplicate
implementations of the same row-decoding, network-classification, thread-naming,
store-reading and polling logic; the definitions below are a shallow embedding
of that logic.  JSON blobs and Python dynamic values are modelled by `PyVal`,
a TEXT column holding JSON by `Blob`, rows of the `mx_room_messages` query by
`Row`, and the normalized output dictionaries by `Message`.  Python exceptions
that can escape a region of code are modelled with `Except`.
-/

set_option maxHeartbeats 1000000

namespace Beeper

/-- Python values as produced by `json.loads`, plus `None`.  JSON object keys
are strings, so dictionaries are association lists with string keys. -/
inductive PyVal where
  | none
  | bool (b : Bool)
  | int (n : Int)
  | str (s : String)
  | list (xs : List PyVal)
  | dict (kvs : List (String × PyVal))

/-- Python truthiness of a `PyVal` (`bool(v)`): `None`, `False`, `0`, `""`,
`[]` and `{}` are falsy, everything else is truthy. -/
def truthy : PyVal → Bool
  | .none => false
  | .bool b => b
  | .int n => n != 0
  | .str s => s != ""
  | .list xs => !xs.isEmpty
  | .dict kvs => !kvs.isEmpty

/-- Python `d.get(k)` on a dict: the stored value, or `None` when absent. -/
def dGet (kvs : List (String × PyVal)) (k : String) : PyVal :=
  match kvs.lookup k with
  | some v => v
  | Option.none => .none

/-- Python `d.get(k, default)` on a dict. -/
def dGetD (kvs : List (String × PyVal)) (k : String) (d : PyVal) : PyVal :=
  match kvs.lookup k with
  | some v => v
  | Option.none => d

/-- Python `a or b`: `a` when truthy, otherwise `b`. -/
def pyOr (a b : PyVal) : PyVal := if truthy a then a else b

/-- A nullable TEXT column holding JSON, as seen by
`json.loads(col) if col else {}`: `absent` is `NULL` or the empty string
(falsy, so `json.loads` is never called), `malformed` is a non-empty string on
which `json.loads` raises `json.JSONDecodeError`, and `wellFormed v` is a
non-empty string that parses to the value `v`. -/
inductive Blob where
  | absent
  | malformed
  | wellFormed (v : PyVal)

/-- Evaluation of `message_data = json.loads(message_json) if message_json else \x7b\x7d` wrapped in
`try/except (json.JSONDecodeError, TypeError)` that resets to `{}`. -/
def parseMessageBlob : Blob → PyVal
  | .absent => .dict []
  | .malformed => .dict []
  | .wellFormed v => v

/-- Python `str.lower()` restricted to its ASCII action, as a character list. -/
def lowerChars (s : String) : List Char := s.data.map Char.toLower

/-- Test `leadsWith needle l`: true when `l` starts with `needle`. -/
def leadsWith : List Char → List Char → Bool
  | [], _ => true
  | _ :: _, [] => false
  | a :: as, b :: bs => a == b && leadsWith as bs

/-- Test `containsSeq needle hay`: `needle` occurs contiguously in `hay`. -/
def containsSeq (needle : List Char) : List Char → Bool
  | [] => needle.isEmpty
  | c :: cs => leadsWith needle (c :: cs) || containsSeq needle cs

/-- Python `needle in hay` on strings (case-sensitive). -/
def pyIn (needle hay : String) : Bool := containsSeq needle.data hay.data

/-- Python `needle in hay.lower()` with an already-lowercase needle. -/
def pyInLower (needle hay : String) : Bool := containsSeq needle.data (lowerChars hay)

/-- Characters removed by Python `str.strip()` (the ASCII whitespace set). -/
def isPySpace (c : Char) : Bool :=
  c == ' ' || c == '\t' || c == '\n' || c == '\r' || c == '\x0b' || c == '\x0c'

/-- Python `s.strip()` on a character list. -/
def stripChars (s : List Char) : List Char :=
  ((s.dropWhile isPySpace).reverse.dropWhile isPySpace).reverse

/-- Decimal rendering of an integer, for Python `repr` of numbers. -/
def intRepr (n : Int) : String := toString n

mutual
/-- Python `repr` of a value (`str` of a dict is its `repr`). -/
def pyRepr : PyVal → String
  | .none => "None"
  | .bool true => "True"
  | .bool false => "False"
  | .int n => intRepr n
  | .str s => "'" ++ s ++ "'"
  | .list xs => "[" ++ pyReprSeq xs ++ "]"
  | .dict kvs => "\x7b" ++ pyReprPairs kvs ++ "\x7d"

/-- Comma-separated `repr` of list elements. -/
def pyReprSeq : List PyVal → String
  | [] => ""
  | [v] => pyRepr v
  | v :: vs => pyRepr v ++ ", " ++ pyReprSeq vs

/-- Comma-separated `repr` of dict entries. -/
def pyReprPairs : List (String × PyVal) → String
  | [] => ""
  | [(k, v)] => "'" ++ k ++ "': " ++ pyRepr v
  | (k, v) :: kvs => "'" ++ k ++ "': " ++ pyRepr v ++ ", " ++ pyReprPairs kvs
end

/-- Python `str(v)`. -/
def pyStr : PyVal → String
  | .str s => s
  | v => pyRepr v

/-- A nullable TEXT column as a Python value (`NULL` maps to `None`). -/
def colVal : Option String → PyVal
  | Option.none => .none
  | some s => .str s

/-- Python truthiness of a nullable string column. -/
def optTruthy : Option String → Bool
  | Option.none => false
  | some s => s != ""

/-- A Python exception that escapes the row-decoding code: `.get` or `.strip`
called on a value that does not support it raises `AttributeError`, which the
inline `except (json.JSONDecodeError, TypeError)` handlers do not catch. -/
inductive PyErr where
  | attributeError
deriving DecidableEq

/-- The text-extraction expression of the source:
`text = (text_content or formatted_content or message_data.get('text', '') or
message_data.get('body', '') or message_data.get('filename', '') or
str(message_data) if message_data else '')`.
Python operator precedence makes the trailing conditional bind the whole
`or`-chain, so when `message_data` is falsy (empty dict) the result is `''`
regardless of the pre-extracted columns; `or` short-circuits left to right, and
`.get` on a truthy non-dict raises `AttributeError`. -/
def extractText (textContent formattedContent : Option String) (md : PyVal) :
    Except PyErr PyVal :=
  if truthy md then
    if truthy (colVal textContent) then .ok (colVal textContent)
    else if truthy (colVal formattedContent) then .ok (colVal formattedContent)
    else
      match md with
      | .dict kvs =>
        let t := dGetD kvs "text" (.str "")
        if truthy t then .ok t
        else
          let b := dGetD kvs "body" (.str "")
          if truthy b then .ok b
          else
            let f := dGetD kvs "filename" (.str "")
            if truthy f then .ok f
            else .ok (.str (pyStr md))
      | _ => .error .attributeError
  else .ok (.str "")

/-- The skip test `if not text or text.strip() == "": continue`; returns `true`
when the row is skipped.  `strip` on a truthy non-string raises. -/
def skipCheck (v : PyVal) : Except PyErr Bool :=
  if truthy v then
    match v with
    | .str s => .ok ((stripChars s.data).isEmpty)
    | _ => .error .attributeError
  else .ok true

/-- The sender-metadata block: `sender_name = sender_id; sender_data = {}` then,
under `try/except (json.JSONDecodeError, TypeError)`, if the raw column is
truthy, `sender_data = json.loads(...)` and `sender_name = displayName or name
or username or sender_id`.  A well-formed non-object blob makes `.get` raise
`AttributeError`, which this `except` clause does not catch. -/
def parseSender (senderId : Option String) :
    Blob → Except PyErr (PyVal × List (String × PyVal))
  | .absent => .ok (colVal senderId, [])
  | .malformed => .ok (colVal senderId, [])
  | .wellFormed (.dict kvs) =>
      .ok (pyOr (dGet kvs "displayName")
            (pyOr (dGet kvs "name")
              (pyOr (dGet kvs "username") (colVal senderId))), kvs)
  | .wellFormed _ => .error .attributeError

/-- Evaluation of `network = network_type or "unknown"`. -/
def netDefault : Option String → String
  | some s => if s != "" then s else "unknown"
  | Option.none => "unknown"

/-- The network classifier of the source: default from the platform hint, then
substring tests on the sender id.  The `whatsapp`, `telegram` and `linkedin`
tests run on `sender_id.lower()`; the `beeper.com` and `local-whatsapp` tests
run on the raw `sender_id` (no `.lower()` in the source). -/
def classifyNetwork (senderId networkType : Option String) : String :=
  let dflt := netDefault networkType
  match senderId with
  | Option.none => dflt
  | some sid =>
    if sid == "" then dflt
    else if pyInLower "whatsapp" sid then "whatsapp"
    else if pyInLower "telegram" sid then "telegram"
    else if pyInLower "linkedin" sid then "linkedin"
    else if pyIn "beeper.com" sid then "matrix"
    else if pyIn "local-whatsapp" sid then "whatsapp"
    else dflt

/-- Python `room_id[:8]`. -/
def shortId (roomId : String) : String := String.mk (roomId.data.take 8)

/-- Embedding of `_generate_thread_name(room_id, network, sender_data)`.  With a string room
id and a dict `sender_data` no statement in the body can raise, so the
`except` fallback `"Thread (...)"` is unreachable on this domain. -/
def generateThreadName (roomId network : String)
    (senderData : List (String × PyVal)) : String :=
  if network == "whatsapp" then
    if !senderData.isEmpty then
      let contactName := pyOr (dGet senderData "displayName") (dGet senderData "name")
      if truthy contactName then "WhatsApp: " ++ pyStr contactName
      else "WhatsApp Chat"
    else "WhatsApp Chat"
  else if network == "telegram" then
    if pyIn "telegram_" roomId then "Telegram Bot/Channel" else "Telegram Chat"
  else if network == "linkedin" then "LinkedIn Chat"
  else if network == "matrix" then "Matrix/Beeper Chat"
  else "Chat (" ++ shortId roomId ++ "...)"

/-- One row of the `mx_room_messages` query result, after the LEFT JOINs against
`users` and `accounts` (`senderUserJson` and `networkType` come from the
joins).  `isDeleted` is the soft-delete flag used by the WHERE clause. -/
structure Row where
  roomId : String
  senderId : Option String
  message : Blob
  timestamp : Int
  eventId : String
  type : String
  isSentByMe : Int
  isEncrypted : Int
  inReplyToID : Option String
  textContent : Option String
  formattedContent : Option String
  senderUserJson : Blob
  networkType : Option String
  isDeleted : Int

/-- The normalized message dictionary built by the decoding loop.  The
`human_time` rendering of the timestamp is wall-clock formatting and is not
modelled; every other key of the source dictionary is a field here. -/
structure Message where
  roomId : String
  threadId : String
  threadName : String
  senderId : Option String
  senderName : PyVal
  network : String
  text : PyVal
  timestamp : Int
  eventId : String
  messageType : String
  isSentByMe : Bool
  isEncrypted : Bool
  isReply : Bool
  replyToId : Option String
  rawMessageData : PyVal
  rawSenderData : List (String × PyVal)

/-- The per-row body of the decoding loop shared by `get_recent_messages`,
`_get_recent_messages` and `get_thread_messages`: parse the message blob,
extract text, skip empty rows (`.ok none`), parse sender metadata, classify
the network, name the thread, and assemble the dictionary.  In the
thread-messages loop the emitted `thread_id` is the query parameter, which the
`WHERE m.roomID = ?` clause makes equal to `roomId`. -/
def decodeRow (r : Row) : Except PyErr (Option Message) :=
  match extractText r.textContent r.formattedContent (parseMessageBlob r.message) with
  | .error e => .error e
  | .ok text =>
    match skipCheck text with
    | .error e => .error e
    | .ok true => .ok Option.none
    | .ok false =>
      match parseSender r.senderId r.senderUserJson with
      | .error e => .error e
      | .ok sres =>
        let network := classifyNetwork r.senderId r.networkType
        .ok (some {
          roomId := r.roomId
          threadId := r.roomId
          threadName := generateThreadName r.roomId network sres.2
          senderId := r.senderId
          senderName := sres.1
          network := network
          text := text
          timestamp := r.timestamp
          eventId := r.eventId
          messageType := r.type
          isSentByMe := r.isSentByMe != 0
          isEncrypted := r.isEncrypted != 0
          isReply := optTruthy r.inReplyToID
          replyToId := r.inReplyToID
          rawMessageData := parseMessageBlob r.message
          rawSenderData := sres.2 })

/-- Message types surfaced by the queries:
`m.type IN ('TEXT', 'MEDIA', 'FILE', 'LOCATION', 'STICKER')`. -/
def allowedTypes : List String := ["TEXT", "MEDIA", "FILE", "LOCATION", "STICKER"]

/-- The fixed enumeration of networks named by the specification. -/
def allowedNetworks : List String :=
  ["whatsapp", "telegram", "linkedin", "matrix", "unknown"]

/-- The type and soft-delete filter shared by both queries. -/
def rowAllowed (r : Row) : Bool := allowedTypes.contains r.type && r.isDeleted == 0

/-- Insertion into a list kept in descending timestamp order. -/
def insertDesc (r : Row) : List Row → List Row
  | [] => [r]
  | x :: xs => if x.timestamp < r.timestamp then r :: x :: xs else x :: insertDesc r xs

/-- Sorting for `ORDER BY m.timestamp DESC` as a deterministic insertion sort. -/
def sortDesc : List Row → List Row
  | [] => []
  | r :: rs => insertDesc r (sortDesc rs)

/-- Insertion into a list kept in ascending timestamp order. -/
def insertAsc (r : Row) : List Row → List Row
  | [] => [r]
  | x :: xs => if r.timestamp < x.timestamp then r :: x :: xs else x :: insertAsc r xs

/-- Sorting for `ORDER BY m.timestamp ASC` as a deterministic insertion sort. -/
def sortAsc : List Row → List Row
  | [] => []
  | r :: rs => insertAsc r (sortAsc rs)

/-- The recent-messages query: rows strictly newer than the watermark, allowed
type, not soft-deleted, newest first, capped at `lim`. -/
def recentQuery (db : List Row) (wm : Int) (lim : Nat) : List Row :=
  (sortDesc (db.filter fun r => decide (wm < r.timestamp) && rowAllowed r)).take lim

/-- The thread query: rows of one room, allowed type, not soft-deleted, oldest
first, capped at `lim`. -/
def threadQuery (db : List Row) (threadId : String) (lim : Nat) : List Row :=
  (sortAsc (db.filter fun r => r.roomId == threadId && rowAllowed r)).take lim

/-- The decoding loop of `get_recent_messages`: decode each row in order,
append emitted messages, and after an append run
`if timestamp > self.last_timestamp: self.last_timestamp = timestamp`.
Skipped rows (`continue` fires before the update) do not touch the watermark.
A decode exception aborts the loop: the messages accumulated so far are
discarded by the caller, but watermark updates made before the exception
persist on `self`.  Returns (messages, final watermark, escaped exception). -/
def processRows : List Row → Int → List Message × Int × Option PyErr
  | [], wm => ([], wm, Option.none)
  | r :: rs, wm =>
    match decodeRow r with
    | .error e => ([], wm, some e)
    | .ok Option.none => processRows rs wm
    | .ok (some m) =>
      let wm2 := if wm < r.timestamp then r.timestamp else wm
      let out := processRows rs wm2
      (m :: out.1, out.2.1, out.2.2)

/-- The decoding loop of `get_thread_messages` (no watermark state). -/
def processRowsT : List Row → List Message × Option PyErr
  | [] => ([], Option.none)
  | r :: rs =>
    match decodeRow r with
    | .error e => ([], some e)
    | .ok Option.none => processRowsT rs
    | .ok (some m) =>
      let out := processRowsT rs
      (m :: out.1, out.2)

/-- A failure of `sqlite3.connect` / `cursor.execute` / `fetchall`. -/
inductive DbErr where
  | failure (msg : String)

/-- Embedding of `get_recent_messages` / `_get_recent_messages` with the store access
outcome made explicit: the whole body sits in `try/except Exception`, so a
connection failure or an escaped decode exception yields `[]`; the watermark
field keeps whatever updates happened before the exception.  Returns the
message list and the new watermark. -/
def getRecentMessagesWith (q : Except DbErr (List Row)) (wm : Int) :
    List Message × Int :=
  match q with
  | .error _ => ([], wm)
  | .ok rows =>
    let out := processRows rows wm
    match out.2.2 with
    | some _ => ([], out.2.1)
    | Option.none => (out.1, out.2.1)

/-- One successful-connection call of the recent-messages operation against a
database snapshot. -/
def getRecentRun (db : List Row) (wm : Int) (lim : Nat) : List Message × Int :=
  getRecentMessagesWith (.ok (recentQuery db wm lim)) wm

/-- Embedding of `get_thread_messages` with the store access outcome made explicit. -/
def getThreadMessagesWith (q : Except DbErr (List Row)) : List Message :=
  match q with
  | .error _ => []
  | .ok rows =>
    match (processRowsT rows).2 with
    | some _ => []
    | Option.none => (processRowsT rows).1

/-- One successful-connection call of the thread-messages operation. -/
def getThreadRun (db : List Row) (threadId : String) (lim : Nat) : List Message :=
  getThreadMessagesWith (.ok (threadQuery db threadId lim))

/-- States of the watermark poller. -/
inductive PollerState where
  | idle
  | running
  | stopped

/-- Observable outcome of one call to `_start_monitoring`. -/
structure MonitorRun where
  finalState : PollerState
  pollCycles : Nat
  setRunning : Bool
  loggedMissing : Bool

/-- Control flow of `SubjectiveBeeperRealTimeDataSource._start_monitoring`:
the body is `if not os.path.exists(self.db_path): BBLogger.log(...)` followed
by a `return` statement that is NOT indented under the `if`, so the `return`
executes unconditionally.  `self.running = True` and the polling loop below it
are unreachable whether or not the database file exists; the only conditional
effect is the missing-database log line. -/
def startMonitoringRun (dbExists : Bool) : MonitorRun :=
  { finalState := .stopped
    pollCycles := 0
    setRunning := false
    loggedMissing := !dbExists }

/-- Bumping the watermark never decreases it. -/
lemma le_bump (wm t : Int) : wm ≤ if wm < t then t else wm := by
  split <;> omega

/-- The bumped watermark dominates the row timestamp. -/
lemma bump_ge (wm t : Int) : t ≤ if wm < t then t else wm := by
  split <;> omega

lemma mem_insertDesc {x r : Row} {l : List Row} :
    x ∈ insertDesc r l ↔ x = r ∨ x ∈ l := by
  induction l with
  | nil => simp [insertDesc]
  | cons a as ih =>
    simp only [insertDesc]
    split
    · simp [List.mem_cons]
    · simp only [List.mem_cons, ih]
      tauto

lemma mem_sortDesc {x : Row} {l : List Row} : x ∈ sortDesc l ↔ x ∈ l := by
  induction l with
  | nil => simp [sortDesc]
  | cons a as ih => simp [sortDesc, mem_insertDesc, ih]

lemma pairwise_insertDesc {r : Row} {l : List Row}
    (h : List.Pairwise (fun a b => b.timestamp ≤ a.timestamp) l) :
    List.Pairwise (fun a b => b.timestamp ≤ a.timestamp) (insertDesc r l) := by
  induction l with
  | nil => simp [insertDesc]
  | cons a as ih =>
    obtain ⟨ha, has⟩ := List.pairwise_cons.mp h
    simp only [insertDesc]
    split
    case isTrue hlt =>
      refine List.Pairwise.cons ?_ (List.Pairwise.cons ha has)
      intro b hb
      rcases List.mem_cons.mp hb with rfl | hb
      · omega
      · have := ha b hb; omega
    case isFalse hge =>
      refine List.Pairwise.cons ?_ (ih has)
      intro b hb
      rcases mem_insertDesc.mp hb with rfl | hb
      · omega
      · exact ha b hb

lemma pairwise_sortDesc (l : List Row) :
    List.Pairwise (fun a b => b.timestamp ≤ a.timestamp) (sortDesc l) := by
  induction l with
  | nil => simp [sortDesc]
  | cons a as ih => exact pairwise_insertDesc ih

lemma pairwise_recentQuery (db : List Row) (wm : Int) (lim : Nat) :
    List.Pairwise (fun a b => b.timestamp ≤ a.timestamp) (recentQuery db wm lim) :=
  (pairwise_sortDesc _).sublist (List.take_sublist _ _)

lemma mem_recentQuery {r : Row} {db : List Row} {wm : Int} {lim : Nat}
    (h : r ∈ recentQuery db wm lim) :
    r ∈ db ∧ wm < r.timestamp ∧ rowAllowed r = true := by
  have h1 := (List.take_sublist lim _).subset h
  have h2 := List.mem_filter.mp (mem_sortDesc.mp h1)
  refine ⟨h2.1, ?_, ?_⟩
  · have := h2.2
    simp only [Bool.and_eq_true, decide_eq_true_eq] at this
    exact this.1
  · have := h2.2
    simp only [Bool.and_eq_true] at this
    exact this.2

lemma mem_insertAsc {x r : Row} {l : List Row} :
    x ∈ insertAsc r l ↔ x = r ∨ x ∈ l := by
  induction l with
  | nil => simp [insertAsc]
  | cons a as ih =>
    simp only [insertAsc]
    split
    · simp [List.mem_cons]
    · simp only [List.mem_cons, ih]
      tauto

lemma mem_sortAsc {x : Row} {l : List Row} : x ∈ sortAsc l ↔ x ∈ l := by
  induction l with
  | nil => simp [sortAsc]
  | cons a as ih => simp [sortAsc, mem_insertAsc, ih]

lemma mem_threadQuery {r : Row} {db : List Row} {tid : String} {lim : Nat}
    (h : r ∈ threadQuery db tid lim) : r ∈ db ∧ rowAllowed r = true := by
  have h1 := (List.take_sublist lim _).subset h
  have h2 := List.mem_filter.mp (mem_sortAsc.mp h1)
  exact ⟨h2.1, ((Bool.and_eq_true _ _).mp h2.2).2⟩

lemma processRows_wm_ge (rows : List Row) (wm : Int) :
    wm ≤ (processRows rows wm).2.1 := by
  induction rows generalizing wm with
  | nil => simp [processRows]
  | cons r rs ih =>
    simp only [processRows]
    split
    · simp
    · exact ih wm
    · exact le_trans (le_bump wm r.timestamp) (ih _)

lemma processRows_wm_val (rows : List Row) (wm : Int) :
    (processRows rows wm).2.1 = wm ∨
    ∃ r ∈ rows, (∃ m, decodeRow r = .ok (some m)) ∧
      (processRows rows wm).2.1 = r.timestamp := by
  induction rows generalizing wm with
  | nil => left; rfl
  | cons r rs ih =>
    cases hdec : decodeRow r with
    | error e =>
      left
      simp [processRows, hdec]
    | ok o =>
      cases o with
      | none =>
        have hred : processRows (r :: rs) wm = processRows rs wm := by
          simp [processRows, hdec]
        rw [hred]
        rcases ih wm with h | ⟨x, hx, hm, hv⟩
        · left; exact h
        · right; exact ⟨x, List.mem_cons_of_mem _ hx, hm, hv⟩
      | some m =>
        have hred : (processRows (r :: rs) wm).2.1 =
            (processRows rs (if wm < r.timestamp then r.timestamp else wm)).2.1 := by
          simp [processRows, hdec]
        rw [hred]
        rcases ih (if wm < r.timestamp then r.timestamp else wm) with h | ⟨x, hx, hm, hv⟩
        · by_cases hlt : wm < r.timestamp
          · right
            refine ⟨r, List.mem_cons_self r rs, ⟨m, hdec⟩, ?_⟩
            rw [h, if_pos hlt]
          · left
            rw [h, if_neg hlt]
        · right; exact ⟨x, List.mem_cons_of_mem _ hx, hm, hv⟩

lemma processRows_skip_of_gt : ∀ (rows : List Row) (wm : Int),
    List.Pairwise (fun a b => b.timestamp ≤ a.timestamp) rows →
    ∀ r ∈ rows, (processRows rows wm).2.1 < r.timestamp →
      wm < (processRows rows wm).2.1 → decodeRow r = .ok Option.none := by
  intro rows
  induction rows with
  | nil => intro wm _ r hr; exact absurd hr (List.not_mem_nil r)
  | cons x xs ih =>
    intro wm hpw r hr hgt hwm
    obtain ⟨hx, hxs⟩ := List.pairwise_cons.mp hpw
    cases hdec : decodeRow x with
    | error e =>
      have hred : processRows (x :: xs) wm = ([], wm, some e) := by
        simp [processRows, hdec]
      rw [hred] at hwm
      exact absurd hwm (lt_irrefl wm)
    | ok o =>
      cases o with
      | none =>
        have hred : processRows (x :: xs) wm = processRows xs wm := by
          simp [processRows, hdec]
        rw [hred] at hgt hwm
        rcases List.mem_cons.mp hr with rfl | hr2
        · exact hdec
        · exact ih wm hxs r hr2 hgt hwm
      | some m =>
        have hred : (processRows (x :: xs) wm).2.1 =
            (processRows xs (if wm < x.timestamp then x.timestamp else wm)).2.1 := by
          simp [processRows, hdec]
        rw [hred] at hgt hwm
        have hx2 : x.timestamp ≤ if wm < x.timestamp then x.timestamp else wm :=
          bump_ge wm x.timestamp
        have hge2 := processRows_wm_ge xs (if wm < x.timestamp then x.timestamp else wm)
        rcases List.mem_cons.mp hr with rfl | hr2
        · exact absurd hgt (by omega)
        · by_cases hcase :
            (if wm < x.timestamp then x.timestamp else wm) <
              (processRows xs (if wm < x.timestamp then x.timestamp else wm)).2.1
          · exact ih _ hxs r hr2 hgt hcase
          · have hrx : r.timestamp ≤ x.timestamp := hx r hr2
            exact absurd hgt (by omega)

lemma processRows_all_skip (rows : List Row) (wm : Int)
    (h : ∀ r ∈ rows, decodeRow r = .ok Option.none) :
    processRows rows wm = ([], wm, Option.none) := by
  induction rows with
  | nil => rfl
  | cons x xs ih =>
    have hx := h x (List.mem_cons_self x xs)
    simp [processRows, hx, ih fun r hr => h r (List.mem_cons_of_mem x hr)]

lemma processRows_nil_of_wm_eq (rows : List Row) (wm : Int)
    (hall : ∀ r ∈ rows, wm < r.timestamp)
    (heq : (processRows rows wm).2.1 = wm) : (processRows rows wm).1 = [] := by
  induction rows with
  | nil => rfl
  | cons x xs ih =>
    cases hdec : decodeRow x with
    | error e => simp [processRows, hdec]
    | ok o =>
      cases o with
      | none =>
        have hred : processRows (x :: xs) wm = processRows xs wm := by
          simp [processRows, hdec]
        rw [hred] at heq ⊢
        exact ih (fun r hr => hall r (List.mem_cons_of_mem x hr)) heq
      | some m =>
        exfalso
        have hxts := hall x (List.mem_cons_self x xs)
        have hred : (processRows (x :: xs) wm).2.1 =
            (processRows xs (if wm < x.timestamp then x.timestamp else wm)).2.1 := by
          simp [processRows, hdec]
        rw [hred] at heq
        have hge := processRows_wm_ge xs (if wm < x.timestamp then x.timestamp else wm)
        rw [if_pos hxts] at heq hge
        omega

lemma processRows_mem (rows : List Row) (wm : Int) (m : Message)
    (h : m ∈ (processRows rows wm).1) : ∃ r ∈ rows, decodeRow r = .ok (some m) := by
  induction rows generalizing wm with
  | nil => exact absurd h (List.not_mem_nil m)
  | cons x xs ih =>
    cases hdec : decodeRow x with
    | error e =>
      rw [show processRows (x :: xs) wm = ([], wm, some e) from by
        simp [processRows, hdec]] at h
      exact absurd h (List.not_mem_nil m)
    | ok o =>
      cases o with
      | none =>
        rw [show processRows (x :: xs) wm = processRows xs wm from by
          simp [processRows, hdec]] at h
        obtain ⟨r, hr, hd⟩ := ih wm h
        exact ⟨r, List.mem_cons_of_mem x hr, hd⟩
      | some m2 =>
        rw [show (processRows (x :: xs) wm).1 =
            m2 :: (processRows xs (if wm < x.timestamp then x.timestamp else wm)).1 from by
          simp [processRows, hdec]] at h
        rcases List.mem_cons.mp h with rfl | h2
        · exact ⟨x, List.mem_cons_self x xs, hdec⟩
        · obtain ⟨r, hr, hd⟩ := ih _ h2
          exact ⟨r, List.mem_cons_of_mem x hr, hd⟩

lemma processRowsT_mem (rows : List Row) (m : Message)
    (h : m ∈ (processRowsT rows).1) : ∃ r ∈ rows, decodeRow r = .ok (some m) := by
  induction rows with
  | nil => exact absurd h (List.not_mem_nil m)
  | cons x xs ih =>
    cases hdec : decodeRow x with
    | error e =>
      rw [show processRowsT (x :: xs) = ([], some e) from by
        simp [processRowsT, hdec]] at h
      exact absurd h (List.not_mem_nil m)
    | ok o =>
      cases o with
      | none =>
        rw [show processRowsT (x :: xs) = processRowsT xs from by
          simp [processRowsT, hdec]] at h
        obtain ⟨r, hr, hd⟩ := ih h
        exact ⟨r, List.mem_cons_of_mem x hr, hd⟩
      | some m2 =>
        rw [show (processRowsT (x :: xs)).1 = m2 :: (processRowsT xs).1 from by
          simp [processRowsT, hdec]] at h
        rcases List.mem_cons.mp h with rfl | h2
        · exact ⟨x, List.mem_cons_self x xs, hdec⟩
        · obtain ⟨r, hr, hd⟩ := ih h2
          exact ⟨r, List.mem_cons_of_mem x hr, hd⟩

lemma getRecent_snd (rows : List Row) (wm : Int) :
    (getRecentMessagesWith (.ok rows) wm).2 = (processRows rows wm).2.1 := by
  simp only [getRecentMessagesWith]
  split <;> rfl

lemma getRecent_fst_sub (rows : List Row) (wm : Int) (m : Message)
    (h : m ∈ (getRecentMessagesWith (.ok rows) wm).1) :
    m ∈ (processRows rows wm).1 := by
  simp only [getRecentMessagesWith] at h
  split at h
  · exact absurd h (List.not_mem_nil m)
  · exact h

lemma getThread_fst_sub (rows : List Row) (m : Message)
    (h : m ∈ getThreadMessagesWith (.ok rows)) : m ∈ (processRowsT rows).1 := by
  simp only [getThreadMessagesWith] at h
  split at h
  · exact absurd h (List.not_mem_nil m)
  · exact h

lemma skipCheck_false_inv {v : PyVal} (h : skipCheck v = .ok false) :
    ∃ s, v = .str s ∧ s ≠ "" ∧ (stripChars s.data).isEmpty = false := by
  unfold skipCheck at h
  split at h
  case isTrue htr =>
    split at h
    case _ s =>
      refine ⟨s, rfl, ?_, ?_⟩
      · simpa [truthy] using htr
      · simpa using h
    case _ => simp at h
  case isFalse => simp at h

lemma decodeRow_some_inv {r : Row} {m : Message}
    (h : decodeRow r = .ok (some m)) :
    m.messageType = r.type ∧
    m.network = classifyNetwork r.senderId r.networkType ∧
    m.replyToId = r.inReplyToID ∧
    m.isReply = optTruthy r.inReplyToID ∧
    m.timestamp = r.timestamp ∧
    skipCheck m.text = .ok false := by
  unfold decodeRow at h
  split at h
  · simp at h
  · split at h
    · simp at h
    · simp at h
    · split at h
      · simp at h
      · simp only [Except.ok.injEq, Option.some.injEq] at h
        subst h
        refine ⟨rfl, rfl, rfl, rfl, rfl, ?_⟩
        assumption

lemma optTruthy_eq_true_iff (o : Option String) :
    optTruthy o = true ↔ ∃ s, o = some s ∧ s ≠ "" := by
  cases o <;> simp [optTruthy]

lemma bump_eq_max (wm t : Int) : (if wm < t then t else wm) = max wm t := by
  rw [max_def]; split_ifs <;> omega

lemma classifyNetwork_mem (sid hint : Option String) :
    classifyNetwork sid hint ∈ allowedNetworks ∨
      hint = some (classifyNetwork sid hint) := by
  have hd : netDefault hint = "unknown" ∨ hint = some (netDefault hint) := by
    cases hint with
    | none => left; rfl
    | some s =>
      simp only [netDefault]
      split
      · right; rfl
      · left; rfl
  have hu : netDefault hint = "unknown" →
      netDefault hint ∈ allowedNetworks := by
    intro h; rw [h]; simp [allowedNetworks]
  unfold classifyNetwork
  cases sid with
  | none => exact hd.imp hu id
  | some s =>
    simp only
    split_ifs with h1 h2 h3 h4 h5 h6
    · exact hd.imp hu id
    · exact Or.inl (by simp [allowedNetworks])
    · exact Or.inl (by simp [allowedNetworks])
    · exact Or.inl (by simp [allowedNetworks])
    · exact Or.inl (by simp [allowedNetworks])
    · exact Or.inl (by simp [allowedNetworks])
    · exact hd.imp hu id

/-- The network classifier as claim C5 states it: the same first-match-wins
rule list, but with ALL substring tests case-insensitive (including the
`beeper.com` and `local-whatsapp` tests).  Stated from the claim's words for
comparison with `classifyNetwork`, which follows the source. -/
def classifyNetworkClaim (senderId networkType : Option String) : String :=
  let dflt := netDefault networkType
  match senderId with
  | Option.none => dflt
  | some sid =>
    if sid == "" then dflt
    else if pyInLower "whatsapp" sid then "whatsapp"
    else if pyInLower "telegram" sid then "telegram"
    else if pyInLower "linkedin" sid then "linkedin"
    else if pyInLower "beeper.com" sid then "matrix"
    else if pyInLower "local-whatsapp" sid then "whatsapp"
    else dflt

/-- The classifier as claim C5 must be amended: the `whatsapp`, `telegram` and
`linkedin` tests are case-insensitive (they run on the lowercased sender id),
while the `beeper.com` and `local-whatsapp` tests are case-sensitive. -/
def classifyNetworkAmended (senderId networkType : Option String) : String :=
  let dflt := netDefault networkType
  match senderId with
  | Option.none => dflt
  | some sid =>
    if sid == "" then dflt
    else if pyInLower "whatsapp" sid then "whatsapp"
    else if pyInLower "telegram" sid then "telegram"
    else if pyInLower "linkedin" sid then "linkedin"
    else if pyIn "beeper.com" sid then "matrix"
    else if pyIn "local-whatsapp" sid then "whatsapp"
    else dflt

/-- Thread naming as claim C8 states it: for whatsapp, `"WhatsApp: {name}"`
when the metadata yields a `displayName` or `name`, else `"WhatsApp Chat"`;
for telegram the `telegram_` room-id test; fixed labels for linkedin and
matrix; otherwise the shortened room id. -/
def threadNameClaim (roomId network : String)
    (senderData : List (String × PyVal)) : String :=
  if network == "whatsapp" then
    let contactName := pyOr (dGet senderData "displayName") (dGet senderData "name")
    if truthy contactName then "WhatsApp: " ++ pyStr contactName
    else "WhatsApp Chat"
  else if network == "telegram" then
    if pyIn "telegram_" roomId then "Telegram Bot/Channel" else "Telegram Chat"
  else if network == "linkedin" then "LinkedIn Chat"
  else if network == "matrix" then "Matrix/Beeper Chat"
  else "Chat (" ++ shortId roomId ++ "...)"

/-- A row with benign defaults, varied below per scenario. -/
def baseRow : Row :=
  { roomId := "room1"
    senderId := some "someone"
    message := .absent
    timestamp := 100
    eventId := "e1"
    type := "TEXT"
    isSentByMe := 0
    isEncrypted := 0
    inReplyToID := Option.none
    textContent := Option.none
    formattedContent := Option.none
    senderUserJson := .absent
    networkType := Option.none
    isDeleted := 0 }

/-- A row whose message blob is malformed JSON and whose pre-extracted
plain-text column is the non-empty string "hello". -/
def c1Row : Row := { baseRow with message := .malformed, textContent := some "hello" }

/-- A row with no extractable text (empty payload, NULL text columns) and
timestamp 100: it is returned by the recent query but skipped. -/
def c3Row : Row := baseRow

/-- A row whose platform hint is "signal" and whose sender id matches no
substring rule; its payload carries text "hi". -/
def c4Row : Row := { baseRow with
  message := .wellFormed (.dict [("text", .str "hi")])
  textContent := some "hi"
  networkType := some "signal" }

/-- The message `c4Row` decodes to. -/
def c4Msg : Message :=
  { roomId := "room1"
    threadId := "room1"
    threadName := "Chat (room1...)"
    senderId := some "someone"
    senderName := .str "someone"
    network := "signal"
    text := .str "hi"
    timestamp := 100
    eventId := "e1"
    messageType := "TEXT"
    isSentByMe := false
    isEncrypted := false
    isReply := false
    replyToId := Option.none
    rawMessageData := .dict [("text", .str "hi")]
    rawSenderData := [] }

/-- A row whose sender-metadata blob is well-formed JSON that is not an
object (the JSON string "x"). -/
def c9Row : Row := { baseRow with
  message := .wellFormed (.dict [("text", .str "hi")])
  textContent := some "hi"
  senderUserJson := .wellFormed (.str "x") }

/-- A row that is a reply (non-empty `inReplyToID`). -/
def c10Row : Row := { baseRow with
  message := .wellFormed (.dict [("text", .str "hi")])
  textContent := some "hi"
  inReplyToID := some "evt0" }

/-- The message `c10Row` decodes to. -/
def c10Msg : Message :=
  { roomId := "room1"
    threadId := "room1"
    threadName := "Chat (room1...)"
    senderId := some "someone"
    senderName := .str "someone"
    network := "unknown"
    text := .str "hi"
    timestamp := 100
    eventId := "e1"
    messageType := "TEXT"
    isSentByMe := false
    isEncrypted := false
    isReply := true
    replyToId := some "evt0"
    rawMessageData := .dict [("text", .str "hi")]
    rawSenderData := [] }

/-- C1: evaluation of the decoder at the claim's own scenario.  `c1Row` has a
malformed (non-JSON) message blob and the non-empty pre-extracted plain-text
column "hello"; the claim says decoding yields a Message with text "hello",
but the source's trailing conditional (`... or str(message_data) if
message_data else ''`) binds the entire or-chain, so with the empty fallback
mapping the extracted text is `''` and the row is skipped entirely. -/
theorem text_priority_ignored_when_payload_empty :
    c1Row.message = Blob.malformed ∧ c1Row.textContent = some "hello" ∧
    extractText (some "hello") Option.none (PyVal.dict []) = .ok (PyVal.str "") ∧
    decodeRow c1Row = .ok Option.none :=
  ⟨rfl, rfl, rfl, rfl⟩

/-- C2: evaluation of the `_start_monitoring` control flow.  Because the
`return` after the existence check is not indented under the `if`, the
function performs zero poll cycles and never sets `running`, whether or not
the database file exists — contradicting the claim that an existing store
file leads to the Running state with repeated polling. -/
theorem start_monitoring_returns_before_loop :
    startMonitoringRun true =
      { finalState := .stopped, pollCycles := 0,
        setRunning := false, loggedMissing := false } ∧
    startMonitoringRun false =
      { finalState := .stopped, pollCycles := 0,
        setRunning := false, loggedMissing := true } :=
  ⟨rfl, rfl⟩

/-- C3 counterexample: a single row with timestamp 100 and no extractable
text is returned by the recent query, yet the watermark stays 0 after the
call — refuting the claim that the watermark is advanced over every returned
row including rows skipped for empty text. -/
theorem watermark_not_advanced_by_skipped_row_cx :
    recentQuery [c3Row] 0 50 = [c3Row] ∧ c3Row.timestamp = 100 ∧
    decodeRow c3Row = .ok Option.none ∧
    getRecentRun [c3Row] 0 50 = ([], 0) ∧ (0 : Int) ≠ 100 :=
  ⟨rfl, rfl, rfl, rfl, by decide⟩

/-- C3 amended: the watermark is monotonically non-decreasing, and after a
call it equals the fold of `max` over the timestamps of exactly the rows that
yielded an emitted Message (the source runs the update after the empty-text
`continue`, so skipped rows never advance it). -/
theorem watermark_max_over_emitted (rows : List Row) (wm : Int) :
    wm ≤ (processRows rows wm).2.1 ∧
    (processRows rows wm).2.1 =
      ((processRows rows wm).1.map Message.timestamp).foldl max wm := by
  refine ⟨processRows_wm_ge rows wm, ?_⟩
  induction rows generalizing wm with
  | nil => rfl
  | cons x xs ih =>
    cases hdec : decodeRow x with
    | error e => simp [processRows, hdec]
    | ok o =>
      cases o with
      | none =>
        have hred : processRows (x :: xs) wm = processRows xs wm := by
          simp [processRows, hdec]
        rw [hred]
        exact ih wm
      | some m =>
        have hts : m.timestamp = x.timestamp := (decodeRow_some_inv hdec).2.2.2.2.1
        have hred1 : (processRows (x :: xs) wm).2.1 =
            (processRows xs (if wm < x.timestamp then x.timestamp else wm)).2.1 := by
          simp [processRows, hdec]
        have hred2 : (processRows (x :: xs) wm).1 =
            m :: (processRows xs (if wm < x.timestamp then x.timestamp else wm)).1 := by
          simp [processRows, hdec]
        rw [hred1, hred2, List.map_cons, List.foldl_cons, hts,
          ← bump_eq_max wm x.timestamp]
        exact ih _

/-- C5 counterexample: the claim says all substring tests are
case-insensitive, so the sender id "BEEPER.COM" would classify as matrix; the
source tests `"beeper.com" in sender_id` without lowering, so the code
returns "unknown" while the claim-worded classifier returns "matrix". -/
theorem beeper_substring_test_case_sensitive_cx :
    classifyNetwork (some "BEEPER.COM") Option.none = "unknown" ∧
    classifyNetworkClaim (some "BEEPER.COM") Option.none = "matrix" :=
  ⟨by decide, by decide⟩

/-- C5 amended: classification is deterministic and first-match-wins with the
claimed rule order, where the whatsapp/telegram/linkedin tests are
case-insensitive and the beeper.com/local-whatsapp tests are case-sensitive;
in particular "local-whatsapp-123" classifies as whatsapp. -/
theorem classifier_first_match_amended :
    (∀ (sid hint : Option String),
      classifyNetwork sid hint = classifyNetworkAmended sid hint) ∧
    classifyNetwork (some "local-whatsapp-123") Option.none = "whatsapp" :=
  ⟨fun _ _ => rfl, by decide⟩

/-- C6: a connection or query failure inside either read operation surfaces
as an empty result list with the watermark untouched, and an exception that
escapes row decoding also yields an empty list — no exception reaches the
caller (both operations are total functions into plain lists). -/
theorem store_reader_swallows_errors :
    (∀ (e : DbErr) (wm : Int), getRecentMessagesWith (.error e) wm = ([], wm)) ∧
    (∀ (e : DbErr), getThreadMessagesWith (.error e) = []) ∧
    (∀ (rows : List Row) (wm : Int),
      (processRows rows wm).2.2 = Option.none ∨
        (getRecentMessagesWith (.ok rows) wm).1 = []) ∧
    (∀ (rows : List Row),
      (processRowsT rows).2 = Option.none ∨ getThreadMessagesWith (.ok rows) = []) := by
  refine ⟨fun e wm => rfl, fun e => rfl, ?_, ?_⟩
  · intro rows wm
    cases h : (processRows rows wm).2.2 with
    | none => exact Or.inl rfl
    | some e => exact Or.inr (by simp [getRecentMessagesWith, h])
  · intro rows
    cases h : (processRowsT rows).2 with
    | none => exact Or.inl rfl
    | some e => exact Or.inr (by simp [getThreadMessagesWith, h])

/-- C8: the thread-naming function agrees everywhere with the claim's
per-network rules, and the two telegram examples evaluate as claimed. -/
theorem thread_naming_rules :
    (∀ (roomId network : String) (senderData : List (String × PyVal)),
      generateThreadName roomId network senderData =
        threadNameClaim roomId network senderData) ∧
    generateThreadName "telegram_news_42" "telegram" [] = "Telegram Bot/Channel" ∧
    generateThreadName "abc123" "telegram" [] = "Telegram Chat" := by
  refine ⟨?_, rfl, rfl⟩
  intro rid nw sd
  by_cases h : nw == "whatsapp"
  · cases sd with
    | nil => simp [generateThreadName, threadNameClaim, h, dGet, pyOr, truthy, List.lookup]
    | cons kv rest => simp [generateThreadName, threadNameClaim, h]
  · simp [generateThreadName, threadNameClaim, h]

/-- C9 counterexample: a row whose sender-metadata blob is well-formed JSON
that is not an object (the JSON string "x") makes `.get` raise
`AttributeError`, which escapes the decoder — refuting the claim that
parsing the sender-metadata blob never raises for every row. -/
theorem sender_metadata_nonobject_raises_cx :
    c9Row.senderUserJson = Blob.wellFormed (PyVal.str "x") ∧
    decodeRow c9Row = .error .attributeError :=
  ⟨rfl, rfl⟩

/-- C9 amended: when the sender-metadata blob is absent or malformed, parsing
degrades to the empty mapping with `sender_name` falling back to the raw
sender id; when it parses to a JSON object, `sender_name` is the first truthy
of displayName, name and username with the sender id as final fallback.  A
well-formed non-object blob instead raises `AttributeError`, caught only at
the store-reader boundary. -/
theorem sender_metadata_parse_amended :
    (∀ (sid : Option String),
      parseSender sid .malformed = .ok (colVal sid, []) ∧
      parseSender sid .absent = .ok (colVal sid, [])) ∧
    (∀ (sid : Option String) (kvs : List (String × PyVal)),
      parseSender sid (.wellFormed (.dict kvs)) =
        .ok (pyOr (dGet kvs "displayName")
              (pyOr (dGet kvs "name")
                (pyOr (dGet kvs "username") (colVal sid))), kvs)) :=
  ⟨fun _ => ⟨rfl, rfl⟩, fun _ _ => rfl⟩

/-- C10: for every decoded row that yields a Message, `is_reply` is the
Python truthiness of the raw `inReplyToID` column (true iff non-null and
non-empty), and `reply_to_id` preserves that raw value unchanged. -/
theorem reply_fields_follow_raw_column :
    ∀ (r : Row) (m : Message), decodeRow r = .ok (some m) →
      m.replyToId = r.inReplyToID ∧
      (m.isReply = true ↔ ∃ s, r.inReplyToID = some s ∧ s ≠ "") := by
  intro r m h
  obtain ⟨_, _, hrep, hisr, _, _⟩ := decodeRow_some_inv h
  exact ⟨hrep, by rw [hisr]; exact optTruthy_eq_true_iff r.inReplyToID⟩

/-- C10 witness: the theorem applied to the concrete reply row `c10Row`. -/
theorem reply_fields_follow_raw_column_witness :
    c10Msg.replyToId = c10Row.inReplyToID ∧
    (c10Msg.isReply = true ↔ ∃ s, c10Row.inReplyToID = some s ∧ s ≠ "") :=
  reply_fields_follow_raw_column c10Row c10Msg rfl

/-- C4 counterexample: a stored platform hint "signal" on a sender id that
matches no substring rule is emitted verbatim as the Message's network, which
is outside the claimed fixed enumeration. -/
theorem network_escapes_fixed_enumeration_cx :
    (getRecentRun [c4Row] 0 50).1.map Message.network = ["signal"] ∧
    "signal" ∉ allowedNetworks :=
  ⟨rfl, by decide⟩

/-- C4 amended: every Message emitted by the recent-messages or
thread-messages operation has non-empty, non-all-whitespace text and a
message type in the fixed set, and its network is either in the fixed
enumeration or equal verbatim to some row's platform-name hint. -/
theorem emitted_message_invariants :
    (∀ (db : List Row) (wm : Int) (lim : Nat) (m : Message),
      m ∈ (getRecentRun db wm lim).1 →
        (∃ s, m.text = PyVal.str s ∧ s ≠ "" ∧ (stripChars s.data).isEmpty = false) ∧
        m.messageType ∈ allowedTypes ∧
        (m.network ∈ allowedNetworks ∨ ∃ r ∈ db, r.networkType = some m.network)) ∧
    (∀ (db : List Row) (tid : String) (lim : Nat) (m : Message),
      m ∈ getThreadRun db tid lim →
        (∃ s, m.text = PyVal.str s ∧ s ≠ "" ∧ (stripChars s.data).isEmpty = false) ∧
        m.messageType ∈ allowedTypes ∧
        (m.network ∈ allowedNetworks ∨ ∃ r ∈ db, r.networkType = some m.network)) := by
  constructor
  · intro db wm lim m hm
    obtain ⟨r, hr, hdec⟩ := processRows_mem _ _ _ (getRecent_fst_sub _ _ _ hm)
    obtain ⟨hdb, _, hall⟩ := mem_recentQuery hr
    obtain ⟨htype, hnet, _, _, _, hskip⟩ := decodeRow_some_inv hdec
    simp only [rowAllowed, Bool.and_eq_true] at hall
    refine ⟨skipCheck_false_inv hskip, ?_, ?_⟩
    · rw [htype]
      simpa using hall.1
    · rcases classifyNetwork_mem r.senderId r.networkType with h | h
      · exact Or.inl (hnet ▸ h)
      · exact Or.inr ⟨r, hdb, by rw [hnet]; exact h⟩
  · intro db tid lim m hm
    obtain ⟨r, hr, hdec⟩ := processRowsT_mem _ _ (getThread_fst_sub _ _ hm)
    obtain ⟨hdb, hall⟩ := mem_threadQuery hr
    obtain ⟨htype, hnet, _, _, _, hskip⟩ := decodeRow_some_inv hdec
    simp only [rowAllowed, Bool.and_eq_true] at hall
    refine ⟨skipCheck_false_inv hskip, ?_, ?_⟩
    · rw [htype]
      simpa using hall.1
    · rcases classifyNetwork_mem r.senderId r.networkType with h | h
      · exact Or.inl (hnet ▸ h)
      · exact Or.inr ⟨r, hdb, by rw [hnet]; exact h⟩

/-- C4 witness: the amended invariants instantiated at the concrete database
`[c4Row]` and the message it emits. -/
theorem emitted_message_invariants_witness :
    (∃ s, c4Msg.text = PyVal.str s ∧ s ≠ "" ∧ (stripChars s.data).isEmpty = false) ∧
    c4Msg.messageType ∈ allowedTypes ∧
    (c4Msg.network ∈ allowedNetworks ∨
      ∃ r ∈ [c4Row], r.networkType = some c4Msg.network) :=
  emitted_message_invariants.1 [c4Row] 0 50 c4Msg (by
    rw [show (getRecentRun [c4Row] 0 50).1 = [c4Msg] from rfl]
    exact List.mem_singleton.mpr rfl)

/-- C7: calling the recent-messages operation twice against the same database
snapshot (no rows inserted in between), threading the watermark the source
maintains, makes the second call return an empty message list: nothing
delivered by the first call is ever re-delivered. -/
theorem recent_repoll_delivers_nothing (db : List Row) (wm : Int) (lim : Nat) :
    (getRecentRun db (getRecentRun db wm lim).2 lim).1 = [] := by
  have hsnd : (getRecentRun db wm lim).2 =
      (processRows (recentQuery db wm lim) wm).2.1 := getRecent_snd _ _
  rw [hsnd]
  set wm1 := (processRows (recentQuery db wm lim) wm).2.1 with hwm1
  by_cases hcase : wm1 = wm
  · rw [hcase]
    show (getRecentMessagesWith (.ok (recentQuery db wm lim)) wm).1 = []
    simp only [getRecentMessagesWith]
    split
    · rfl
    · apply processRows_nil_of_wm_eq
      · intro r hr
        exact (mem_recentQuery hr).2.1
      · exact hwm1.symm.trans hcase
  · have hge : wm ≤ wm1 := by rw [hwm1]; exact processRows_wm_ge _ _
    have hlt : wm < wm1 := lt_of_le_of_ne hge (Ne.symm hcase)
    have hval := processRows_wm_val (recentQuery db wm lim) wm
    rw [← hwm1] at hval
    rcases hval with h | ⟨e, he1, -, hv⟩
    · exact absurd h hcase
    · have hallskip : ∀ r ∈ recentQuery db wm1 lim,
          decodeRow r = .ok Option.none := by
        intro r hr
        obtain ⟨hdb, hts2, hall⟩ := mem_recentQuery hr
        have hrl : r ∈ recentQuery db wm lim := by
          have hfil : r ∈ db.filter
              (fun r => decide (wm < r.timestamp) && rowAllowed r) :=
            List.mem_filter.mpr ⟨hdb, by
              simp only [Bool.and_eq_true, decide_eq_true_eq]
              exact ⟨by omega, hall⟩⟩
          have hS1 : r ∈ sortDesc (db.filter
              (fun r => decide (wm < r.timestamp) && rowAllowed r)) :=
            mem_sortDesc.mpr hfil
          have hpwS1 := pairwise_sortDesc (db.filter
            (fun r => decide (wm < r.timestamp) && rowAllowed r))
          rw [← List.take_append_drop lim (sortDesc (db.filter
            (fun r => decide (wm < r.timestamp) && rowAllowed r)))] at hS1 hpwS1
          rcases List.mem_append.mp hS1 with h1 | h2
          · exact h1
          · exfalso
            have hrel := (List.pairwise_append.mp hpwS1).2.2 e he1 r h2
            omega
        refine processRows_skip_of_gt (recentQuery db wm lim) wm
          (pairwise_recentQuery db wm lim) r hrl ?_ ?_
        · rw [← hwm1]; exact hts2
        · rw [← hwm1]; exact hlt
      show (getRecentMessagesWith (.ok (recentQuery db wm1 lim)) wm1).1 = []
      simp only [getRecentMessagesWith,
        processRows_all_skip (recentQuery db wm1 lim) wm1 hallskip]

end Beeper
